import Mathlib

/-!
Shallow embedding of the structured web-data extraction pipeline of the
repository (modules `src/scraping/parser.rs`, `extractor.rs`,
`transformer.rs`, `batch.rs`) and proofs of the specification claims.

Conventions of the embedding:
* `serde_json::Value` is modelled by the inductive `Json`; numbers are
  modelled by rationals (`ℚ`), abstracting 64-bit float rounding.
* Behaviour supplied by external crates (the `regex` engine, Rust float
  parsing and float display, and `kuchikiki`'s `Debug` rendering of
  attribute values) is gathered into the parameter structure `Externals`; the
  repository's own logic is embedded verbatim over it.  The one concrete
  piece of external behaviour that matters to a claim is the fallback
  pattern `".*"`, whose semantics (`.` matches every character except a
  newline, `*` is greedy, matching starts at offset 0) is fixed by
  `dotStar`.
* `serde_json::Map` is modelled by an association list with
  update-or-append insertion; all claim statements read it through
  `lookupField`, for which the map representation is irrelevant.
-/

/-- Model of `serde_json::Value`. -/
inductive Json where
  | null : Json
  | bool (b : Bool) : Json
  | num (q : ℚ) : Json
  | str (s : String) : Json
  | arr (elems : List Json) : Json
  | obj (fields : List (String × Json)) : Json
deriving Inhabited

/-- Lookup of a field in the model of `serde_json::Map` (`item.get(key)`). -/
def lookupField : List (String × Json) → String → Option Json
  | [], _ => none
  | (k, v) :: fs, key => if k = key then some v else lookupField fs key

/-- Insertion into the model of `serde_json::Map` (`map.insert(key, value)`):
update in place when the key exists, append otherwise. -/
def insertField : List (String × Json) → String → Json → List (String × Json)
  | [], key, value => [(key, value)]
  | (k, v) :: fs, key, value =>
    if k = key then (k, value) :: fs else (k, v) :: insertField fs key value

/-- `Value::as_str().unwrap_or("")`. -/
def Json.asStrD : Json → String
  | .str s => s
  | _ => ""

/-- `Value::as_str()`. -/
def Json.asStr : Json → Option String
  | .str s => some s
  | _ => none

/-- `Value::as_f64()` (numbers modelled as rationals). -/
def Json.asF64 : Json → Option ℚ
  | .num q => some q
  | _ => none

/-- `Value::as_bool()`. -/
def Json.asBool : Json → Option Bool
  | .bool b => some b
  | _ => none

/-- `Value::as_i64()`: an integral number within the `i64` range. -/
def Json.asI64 : Json → Option Int
  | .num q =>
    if q.den = 1 ∧ -(2 ^ 63) ≤ q.num ∧ q.num ≤ 2 ^ 63 - 1 then some q.num else none
  | _ => none

/-- `Value::as_object()` presence test. -/
def Json.asObj : Json → Option (List (String × Json))
  | .obj fs => some fs
  | _ => none

/-- `i64::from_str` (`s.parse::<i64>()`): optional sign, at least one ASCII
digit, all digits, value within the `i64` range. -/
def parseI64 (s : String) : Option Int :=
  let p : Bool × List Char :=
    match s.data with
    | '-' :: rest => (true, rest)
    | '+' :: rest => (false, rest)
    | l => (false, l)
  let neg := p.1
  let ds := p.2
  if ds.isEmpty ∨ ¬ ds.all Char.isDigit then none
  else
    let n : Nat := ds.foldl (fun acc c => acc * 10 + (c.toNat - 48)) 0
    let v : Int := if neg then -(n : Int) else (n : Int)
    if v < -(2 ^ 63) ∨ v > 2 ^ 63 - 1 then none else some v

/-- Whether `needle` occurs at the head of `hay` (character lists). -/
def headOccurs : List Char → List Char → Bool
  | [], _ => true
  | _ :: _, [] => false
  | a :: as_, b :: bs => a == b && headOccurs as_ bs

/-- `str::starts_with` for string patterns. -/
def strStartsWith (s p : String) : Bool :=
  headOccurs p.data s.data

/-- `str::ends_with` for string patterns. -/
def strEndsWith (s p : String) : Bool :=
  headOccurs p.data (s.data.drop (s.data.length - p.data.length))

/-- Drop the first `n` characters of a string. -/
def strDrop (s : String) (n : Nat) : String :=
  String.mk (s.data.drop n)

/-- Drop the last `n` characters of a string. -/
def strDropRight (s : String) (n : Nat) : String :=
  String.mk (s.data.take (s.data.length - n))

/-- Splitting of a character list at every separator character (adjacent
separators yield empty pieces, like Rust `str::split`). -/
def splitOnPredAux (p : Char → Bool) : List Char → List Char → List (List Char)
  | [], cur => [cur.reverse]
  | c :: rest, cur =>
    if p c then cur.reverse :: splitOnPredAux p rest []
    else splitOnPredAux p rest (c :: cur)

/-- `str::split(sep)` for a single-character separator. -/
def strSplitOnChar (sep : Char) (s : String) : List String :=
  (splitOnPredAux (fun c => c = sep) s.data []).map String.mk

/-- `str::split_whitespace`: the non-empty pieces between whitespace runs. -/
def splitWhitespace (s : String) : List String :=
  ((splitOnPredAux Char.isWhitespace s.data []).map String.mk).filter
    (fun p => p ≠ "")

/-- `str::trim` on a character list. -/
def trimChars (l : List Char) : List Char :=
  ((l.dropWhile Char.isWhitespace).reverse.dropWhile Char.isWhitespace).reverse

/-- `str::trim`. -/
def strTrim (s : String) : String :=
  String.mk (trimChars s.data)

/-- `str::to_lowercase` (ASCII case folding; Rust performs full Unicode
lowercasing, which agrees on ASCII). -/
def strToLower (s : String) : String :=
  String.mk (s.data.map Char.toLower)

/-- `str::to_uppercase` (ASCII case folding). -/
def strToUpper (s : String) : String :=
  String.mk (s.data.map Char.toUpper)

/-- The scan of `str::replace` for a non-empty pattern: non-overlapping
matches replaced left to right; `fuel` is the input length, enough for the
whole scan. -/
def replaceFuel (needle repl : List Char) : Nat → List Char → List Char
  | _, [] => []
  | 0, l => l
  | fuel + 1, c :: rest =>
    if headOccurs needle (c :: rest) then
      repl ++ replaceFuel needle repl fuel ((c :: rest).drop needle.length)
    else c :: replaceFuel needle repl fuel rest

/-- `str::replace`: every non-overlapping occurrence of `pat` replaced by
`sub`; the empty pattern matches at every character boundary. -/
def strReplace (s pat sub : String) : String :=
  if pat = "" then
    String.mk (sub.data ++ (s.data.map (fun c => c :: sub.data)).flatten)
  else String.mk (replaceFuel pat.data sub.data s.data.length s.data)

/-- `String::contains` for string operands (substring test). -/
def strContains (hay needle : String) : Bool :=
  (List.range (hay.data.length + 1)).any
    (fun i => headOccurs needle.data (hay.data.drop i))

/-- A compiled pattern of the external `regex` crate, abstracted to the two
operations the repository uses: `is_match` and `captures` (group 0 first,
then the participating capture groups). -/
structure CompiledRegex where
  isMatch : String → Bool
  caps : String → Option (List String)

/-- `Regex::new(".*")`, the fallback pattern the extractor substitutes for
an invalid one: it matches every string (the empty match at offset 0), and
its group 0 is the maximal run of non-newline characters from offset 0. -/
def dotStar : CompiledRegex where
  isMatch := fun _ => true
  caps := fun s => some [String.mk (s.data.takeWhile (fun c => c ≠ '\n'))]

/-- External behaviour the embedded code is parameterized by: `Regex::new`
(`none` for a syntactically invalid pattern), `s.parse::<f64>()` composed
with `Number::from_f64` (so `none` also covers NaN/infinity), float
display, and `kuchikiki`'s `Debug` rendering of attribute values. -/
structure Externals where
  compile : String → Option CompiledRegex
  parseF64 : String → Option ℚ
  renderNum : ℚ → String
  attrRender : String → String

/-- One escaped character of `serde_json`'s string serializer: `"` and `\`
are backslash-escaped, control characters below 0x20 get their short forms
or a `\u00XX` escape with lowercase hex digits. -/
def jsonEscapeChar (c : Char) : List Char :=
  if c = '"' then ['\\', '"']
  else if c = '\\' then ['\\', '\\']
  else if c = Char.ofNat 8 then ['\\', 'b']
  else if c = Char.ofNat 9 then ['\\', 't']
  else if c = Char.ofNat 10 then ['\\', 'n']
  else if c = Char.ofNat 12 then ['\\', 'f']
  else if c = Char.ofNat 13 then ['\\', 'r']
  else if c.toNat < 32 then
    let hexDigit : Nat → Char := fun n =>
      if n < 10 then Char.ofNat (48 + n) else Char.ofNat (87 + n)
    ['\\', 'u', '0', '0', hexDigit (c.toNat / 16), hexDigit (c.toNat % 16)]
  else [c]

/-- `serde_json` serialization of a string: the escaped body wrapped in
double quotes. -/
def jsonQuote (s : String) : String :=
  String.mk ('"' :: (s.data.map jsonEscapeChar).flatten ++ ['"'])

mutual

/-- `Value::to_string()`: the compact `serde_json` serialization. -/
def jsonRender (ext : Externals) : Json → String
  | .null => "null"
  | .bool true => "true"
  | .bool false => "false"
  | .num q => ext.renderNum q
  | .str s => jsonQuote s
  | .arr xs => "[" ++ jsonRenderList ext xs ++ "]"
  | .obj fs => "\x7b" ++ jsonRenderFields ext fs ++ "\x7d"

/-- Comma-separated serialization of array elements. -/
def jsonRenderList (ext : Externals) : List Json → String
  | [] => ""
  | [x] => jsonRender ext x
  | x :: y :: xs => jsonRender ext x ++ "," ++ jsonRenderList ext (y :: xs)

/-- Comma-separated serialization of object entries. -/
def jsonRenderFields (ext : Externals) : List (String × Json) → String
  | [] => ""
  | [(k, v)] => jsonQuote k ++ ":" ++ jsonRender ext v
  | (k, v) :: f :: fs =>
    jsonQuote k ++ ":" ++ jsonRender ext v ++ "," ++ jsonRenderFields ext (f :: fs)

end

/-! ## Field extractor (`src/scraping/extractor.rs`) -/

/-- `ExtractionError` (`extractor.rs`). -/
inductive ExtractionError where
  | validationError (msg : String)
  | patternError (msg : String)
  | conversionError (msg : String)
  | missingField (msg : String)
deriving Inhabited

/-- `DataType` (`extractor.rs`). -/
inductive DataType where
  | string
  | integer
  | float
  | boolean
  | dateTime
  | array (inner : DataType)
  | object
deriving Inhabited

/-- `FieldRule` (`extractor.rs`); the source field `attribute` is embedded
as `attr` because `attribute` is reserved in Lean. -/
structure FieldRule where
  name : String
  selector : String
  attr : Option String
  data_type : DataType
  required : Bool
  default_value : Option Json
  transformations : List String
  pattern : Option String

/-- `ExtractionSchema` (`extractor.rs`). -/
structure ExtractionSchema where
  name : String
  rules : List FieldRule
  root_selector : Option String
  multiple : Bool

/-- `ExtractorConfig` (`extractor.rs`). -/
structure ExtractorConfig where
  strict_mode : Bool
  case_sensitive : Bool
  trim_whitespace : Bool
  validate_patterns : Bool
  max_array_size : Option Nat

/-- `ExtractorConfig::default()`. -/
def ExtractorConfig.default : ExtractorConfig where
  strict_mode := true
  case_sensitive := false
  trim_whitespace := true
  validate_patterns := true
  max_array_size := some 1000

/-- `ExtractionResult` (`extractor.rs`); `success_rate` is modelled as a
rational. -/
structure ExtractionResult where
  data : Json
  extracted_at : String
  schema_name : String
  fields_extracted : Nat
  fields_failed : Nat
  success_rate : ℚ

/-- `DataExtractor::apply_regex`: look the pattern up (the per-extractor
cache is semantically transparent: the same pattern always compiles to the
same regex), falling back to `".*"` when compilation fails; return capture
group 1 when the pattern has one, group 0 otherwise, `Null` on no match. -/
def applyRegex (ext : Externals) (value : Json) (pattern : String) :
    Except ExtractionError Json :=
  let rx := (ext.compile pattern).getD dotStar
  match rx.caps value.asStrD with
  | some (_ :: c1 :: _) => .ok (.str c1)
  | some [c0] => .ok (.str c0)
  | some [] => .ok .null
  | none => .ok .null

/-- `DataExtractor::validate_pattern`, with the same fallback-on-invalid
compilation as `apply_regex`. -/
def validatePattern (ext : Externals) (value : Json) (pattern : String) :
    Except ExtractionError Unit :=
  let rx := (ext.compile pattern).getD dotStar
  if rx.isMatch value.asStrD then .ok ()
  else .error (.validationError ("Value '" ++ value.asStrD ++
    "' does not match pattern '" ++ pattern ++ "'"))

/-- `DataExtractor::apply_transformation`. -/
def applyTransformation (ext : Externals) (value : Json) (t : String) :
    Except ExtractionError Json :=
  if t = "trim" then .ok (.str (strTrim value.asStrD))
  else if t = "lowercase" then .ok (.str (strToLower value.asStrD))
  else if t = "uppercase" then .ok (.str (strToUpper value.asStrD))
  else if t = "remove_whitespace" then .ok (.str (strReplace value.asStrD " " ""))
  else if strStartsWith t "regex:" then applyRegex ext value (strDrop t 6)
  else if strStartsWith t "replace:" then
    let parts := strSplitOnChar ':' (strDrop t 8)
    match parts with
    | search :: repl :: _ => .ok (.str (strReplace value.asStrD search repl))
    | _ => .error (.patternError ("Invalid replace transformation: " ++ t))
  else .error (.patternError ("Unknown transformation: " ++ t))

/-- `DataExtractor::convert_type`. -/
def convertType (ext : Externals) (value : Json) (target : DataType) :
    Except ExtractionError Json :=
  match target with
  | .string => .ok (.str (jsonRender ext value))
  | .integer =>
    match value.asI64 with
    | some n => .ok (.num (n : ℚ))
    | none =>
      match value.asStr with
      | some s =>
        match parseI64 s with
        | some n => .ok (.num (n : ℚ))
        | none => .error (.conversionError ("Cannot convert '" ++ s ++ "' to integer"))
      | none => .error (.conversionError "Cannot convert to integer")
  | .float =>
    match value.asF64 with
    | some q => .ok (.num q)
    | none =>
      match value.asStr with
      | some s =>
        match ext.parseF64 s with
        | some q => .ok (.num q)
        | none => .error (.conversionError ("Cannot convert '" ++ s ++ "' to float"))
      | none => .error (.conversionError "Cannot convert to float")
  | .boolean =>
    match value.asBool with
    | some b => .ok (.bool b)
    | none =>
      match value.asStr with
      | some s =>
        .ok (.bool (strToLower s = "true" ∨ strToLower s = "1" ∨ strToLower s = "yes"))
      | none => .error (.conversionError "Cannot convert to boolean")
  | .dateTime =>
    match value.asStr with
    | some s => .ok (.str s)
    | none => .error (.conversionError "Cannot convert to datetime")
  | .array _ => .ok (.arr [value])
  | .object => .ok value

/-- `DataExtractor::extract_raw_value`: the placeholder in the source that
stands in for DOM extraction, returning `"extracted_<rule name>"`. -/
def extractRawValue (_data : String) (rule : FieldRule) :
    Except ExtractionError Json :=
  .ok (.str ("extracted_" ++ rule.name))

/-- The transformation loop of `DataExtractor::extract_field`. -/
def applyTransformations (ext : Externals) (value : Json) :
    List String → Except ExtractionError Json
  | [] => .ok value
  | t :: ts => do
    let v ← applyTransformation ext value t
    applyTransformations ext v ts

/-- `DataExtractor::extract_field`: raw value, then transformations in
order, then optional pattern validation, then type coercion. -/
def extractField (ext : Externals) (cfg : ExtractorConfig) (data : String)
    (rule : FieldRule) : Except ExtractionError Json := do
  let raw ← extractRawValue data rule
  let value ← applyTransformations ext raw rule.transformations
  match rule.pattern with
  | some p =>
    if cfg.validate_patterns then do
      validatePattern ext value p
      convertType ext value rule.data_type
    else convertType ext value rule.data_type
  | none => convertType ext value rule.data_type

/-- The rule loop of `DataExtractor::extract`, accumulating the output
object and the success/failure counters; aborts with the triggering error
on a failing rule that is `required` under `strict_mode`, substitutes the
rule's default value otherwise (omitting the field when there is none). -/
def extractLoop (ext : Externals) (cfg : ExtractorConfig) (data : String) :
    List FieldRule → List (String × Json) → Nat → Nat →
    Except ExtractionError (List (String × Json) × Nat × Nat)
  | [], acc, succ, failed => .ok (acc, succ, failed)
  | rule :: rules, acc, succ, failed =>
    match extractField ext cfg data rule with
    | .ok v => extractLoop ext cfg data rules (insertField acc rule.name v) (succ + 1) failed
    | .error e =>
      if rule.required ∧ cfg.strict_mode then .error e
      else
        match rule.default_value with
        | some d =>
          extractLoop ext cfg data rules (insertField acc rule.name d) succ (failed + 1)
        | none => extractLoop ext cfg data rules acc succ (failed + 1)

/-- The success-rate formula of `DataExtractor::extract` (and of
`BatchProcessor`): `count / total * 100`, `0` when `total = 0`. -/
def ratePercent (count total : Nat) : ℚ :=
  if 0 < total then ((count : ℚ) / (total : ℚ)) * 100 else 0

/-- `DataExtractor::extract`; `now` stands for the `chrono` timestamp. -/
def extract (ext : Externals) (cfg : ExtractorConfig) (now : String)
    (data : String) (schema : ExtractionSchema) :
    Except ExtractionError ExtractionResult := do
  let (acc, succ, failed) ← extractLoop ext cfg data schema.rules [] 0 0
  .ok { data := .obj acc
        extracted_at := now
        schema_name := schema.name
        fields_extracted := succ
        fields_failed := failed
        success_rate := ratePercent succ (succ + failed) }

/-! ## DOM parser (`src/scraping/parser.rs`)

HTML parsing itself is done by the external `html5ever`/`kuchikiki` crates;
the embedding therefore works on the parsed node forest (`Node`), over
which the repository's own traversal and extraction logic is defined.
Offsets and lengths are character-based; the Rust code uses byte offsets,
which agree on ASCII input. -/

/-- `ParseError` (`parser.rs`). -/
inductive ParseError where
  | invalidHtml (msg : String)
  | invalidSelector (msg : String)
  | invalidXPath (msg : String)
  | elementNotFound (msg : String)
  | parseFailed (msg : String)
deriving Inhabited

/-- `ParserConfig` (`parser.rs`). -/
structure ParserConfig where
  encoding : String
  preserve_whitespace : Bool
  normalize_spaces : Bool
  max_depth : Option Nat

/-- `ParserConfig::default()`. -/
def ParserConfig.default : ParserConfig where
  encoding := "utf-8"
  preserve_whitespace := false
  normalize_spaces := true
  max_depth := none

/-- A node of the parsed HTML document: an element with its attribute list
and ordered children, or a text node. -/
inductive Node where
  | text (s : String) : Node
  | elem (tag : String) (attrs : List (String × String)) (children : List Node) : Node
deriving Inhabited

/-- Attribute lookup (`elem_ref.attributes.borrow().get(name)`). -/
def getAttr : List (String × String) → String → Option String
  | [], _ => none
  | (k, v) :: rest, name => if k = name then some v else getAttr rest name

/-- `ParsedElement` (`parser.rs`). -/
structure ParsedElement where
  tag : String
  text : String
  attributes : List (String × String)
  children : List ParsedElement
  depth : Nat

/-- The text-gathering part of `element_to_parsed`: text children are
appended when `preserve_whitespace` is on or the text is not pure
whitespace. -/
def gatherText (cfg : ParserConfig) : List Node → String
  | [] => ""
  | .text s :: rest =>
    (if cfg.preserve_whitespace ∨ strTrim s ≠ "" then s else "") ++ gatherText cfg rest
  | .elem _ _ _ :: rest => gatherText cfg rest

mutual

/-- `DomParser::element_to_parsed` (which always returns `Ok` in the
source): tag and attributes of the element (attribute values go through
`kuchikiki`'s `Debug` rendering `ar`), gathered own text (trimmed unless
`preserve_whitespace`), recursively converted element children. -/
def elementToParsed (cfg : ParserConfig) (ar : String → String) :
    Node → Nat → ParsedElement
  | .text _, d => { tag := "", text := "", attributes := [], children := [], depth := d }
  | .elem tag attrs cs, d =>
    let raw := gatherText cfg cs
    { tag := tag
      text := if cfg.preserve_whitespace then raw else strTrim raw
      attributes := attrs.map (fun p => (p.1, ar p.2))
      children := parsedChildren cfg ar cs (d + 1)
      depth := d }

/-- Element children of a node, converted in order. -/
def parsedChildren (cfg : ParserConfig) (ar : String → String) :
    List Node → Nat → List ParsedElement
  | [], _ => []
  | .text _ :: rest, d => parsedChildren cfg ar rest d
  | .elem t a cs :: rest, d =>
    elementToParsed cfg ar (.elem t a cs) d :: parsedChildren cfg ar rest d

end

/-- Whether an element's `class` attribute contains the exact token
(`classes.split_whitespace().any(|c| c == class_name)`). -/
def hasClassToken (attrs : List (String × String)) (cls : String) : Bool :=
  match getAttr attrs "class" with
  | some c => (splitWhitespace c).contains cls
  | none => false

mutual

/-- `DomParser::find_by_class`: a matching element is recorded and its
children are still searched; traversal is depth-first pre-order. -/
def findByClass (cls : String) : Node → List Node
  | .text _ => []
  | .elem t attrs cs =>
    (if hasClassToken attrs cls then [Node.elem t attrs cs] else []) ++
      findByClassF cls cs

/-- `find_by_class` over a node forest (the children loop). -/
def findByClassF (cls : String) : List Node → List Node
  | [] => []
  | c :: cs => findByClass cls c ++ findByClassF cls cs

end

mutual

/-- `DomParser::find_by_id`: on a match the element is recorded and the
function returns — which in the source only prunes the matched element's
own subtree; the caller's loop continues with the siblings. -/
def findById (idName : String) : Node → List Node
  | .text _ => []
  | .elem t attrs cs =>
    if getAttr attrs "id" = some idName then [Node.elem t attrs cs]
    else findByIdF idName cs

/-- `find_by_id` over a node forest (the children loop). -/
def findByIdF (idName : String) : List Node → List Node
  | [] => []
  | c :: cs => findById idName c ++ findByIdF idName cs

end

mutual

/-- `DomParser::find_by_tag`: all elements with the given tag name,
depth-first pre-order. -/
def findByTag (tagName : String) : Node → List Node
  | .text _ => []
  | .elem t attrs cs =>
    (if t = tagName then [Node.elem t attrs cs] else []) ++ findByTagF tagName cs

/-- `find_by_tag` over a node forest (the children loop). -/
def findByTagF (tagName : String) : List Node → List Node
  | [] => []
  | c :: cs => findByTag tagName c ++ findByTagF tagName cs

end

mutual

/-- All element nodes of a tree in depth-first pre-order (the reference
traversal order used to state the selector claims). -/
def elemsPre : Node → List Node
  | .text _ => []
  | .elem t attrs cs => Node.elem t attrs cs :: elemsPreF cs

/-- `elemsPre` over a node forest. -/
def elemsPreF : List Node → List Node
  | [] => []
  | c :: cs => elemsPre c ++ elemsPreF cs

end

/-- `DomParser::select_css`: dispatch on the selector's first character
(`.class` / `#id` / `tag`), then convert each matched node with
`element_to_parsed(node, 0)` (the source converts at match time; mapping
the conversion over the matched nodes is the same computation). -/
def selectCss (cfg : ParserConfig) (ar : String → String) (doc : List Node)
    (selector : String) : List ParsedElement :=
  let nodes :=
    if strStartsWith selector "." then findByClassF (strDrop selector 1) doc
    else if strStartsWith selector "#" then findByIdF (strDrop selector 1) doc
    else findByTagF selector doc
  nodes.map (fun n => elementToParsed cfg ar n 0)

/-- `DomParser::extract_attribute`: `ElementNotFound` on zero matches;
otherwise the attribute of the FIRST match only, `ElementNotFound` when
that first match lacks the attribute. -/
def extractAttribute (cfg : ParserConfig) (ar : String → String)
    (doc : List Node) (selector attrName : String) : Except ParseError String :=
  let elements := selectCss cfg ar doc selector
  if elements.isEmpty then .error (.elementNotFound selector)
  else
    match elements.head? >>= fun e => getAttr e.attributes attrName with
    | some v => .ok v
    | none => .error (.elementNotFound (attrName ++ " attribute on " ++ selector))

/-- `DomParser::extract_attributes`: the attribute values of all matches
that have the attribute; never an error (no empty-match check in the
source). -/
def extractAttributes (cfg : ParserConfig) (ar : String → String)
    (doc : List Node) (selector attrName : String) :
    Except ParseError (List String) :=
  let elements := selectCss cfg ar doc selector
  .ok (elements.filterMap (fun e => getAttr e.attributes attrName))

/-! ### Content search (`search_content` / `search_single_term`) -/

/-- `SearchConfig` (`parser.rs`). -/
structure SearchConfig where
  case_sensitive : Bool
  whole_words : Bool
  max_context_length : Nat
  include_line_numbers : Bool

/-- `SearchConfig::default()`. -/
def SearchConfig.default : SearchConfig where
  case_sensitive := false
  whole_words := false
  max_context_length := 100
  include_line_numbers := true

/-- `SearchMatch` (`parser.rs`). -/
structure SearchMatch where
  term : String
  text : String
  start_position : Nat
  end_position : Nat
  context : String
  line_number : Option Nat
  element_path : Option String

/-- `SearchResult` (`parser.rs`); the source field `matches` is embedded as
`matchList` because `matches` is reserved in Lean. -/
structure SearchResult where
  term : String
  matchList : List SearchMatch
  total_matches : Nat

/-- A word character of the regex `\b` boundary (`\w`), on ASCII input:
alphanumeric or underscore. -/
def isWordChar (c : Char) : Bool :=
  c.isAlphanum ∨ c = '_'

/-- Whether the character at offset `i` is a word character (out-of-range
counts as non-word). -/
def wordAt (line : List Char) (i : Nat) : Bool :=
  match line.get? i with
  | some c => isWordChar c
  | none => false

/-- The `\b` condition at offset `k`: the wordness of the characters on the
two sides differs. -/
def boundAt (line : List Char) (k : Nat) : Bool :=
  (if k = 0 then false else wordAt line (k - 1)) != wordAt line k

/-- Character comparison under the `(?i)` modifier (ASCII case folding). -/
def charMatch (caseSensitive : Bool) (a b : Char) : Bool :=
  if caseSensitive then a = b else a.toLower = b.toLower

/-- Whether the escaped-literal term matches at the head of the given
character suffix. -/
def litMatch (caseSensitive : Bool) : List Char → List Char → Bool
  | [], _ => true
  | _ :: _, [] => false
  | a :: as_, b :: bs => charMatch caseSensitive a b && litMatch caseSensitive as_ bs

/-- A match of the built pattern at offset `i` of a line, returning the end
offset: the escaped literal must match, and under `whole_words` the `\b`
conditions at both ends must hold. -/
def termMatchAt (cfg : SearchConfig) (term line : List Char) (i : Nat) :
    Option Nat :=
  if litMatch cfg.case_sensitive term (line.drop i) &&
      (!cfg.whole_words || (boundAt line i && boundAt line (i + term.length)))
  then some (i + term.length) else none

/-- The scan of `find_iter`, written with explicit fuel (every step moves
the offset forward by at least one, so `n + 1 - i` steps always suffice
and the fuel never runs out before the offset passes `n`). -/
def scanFuel (matchAt : Nat → Option Nat) (n : Nat) : Nat → Nat → List (Nat × Nat)
  | 0, _ => []
  | fuel + 1, i =>
    if i ≤ n then
      match matchAt i with
      | some j => (i, j) :: scanFuel matchAt n fuel (max j (i + 1))
      | none => scanFuel matchAt n fuel (i + 1)
    else []

/-- `find_iter` semantics: leftmost matches over offsets `i..n`, scanning
from the end of the previous match (non-overlapping). -/
def scanFrom (matchAt : Nat → Option Nat) (n : Nat) (i : Nat) :
    List (Nat × Nat) :=
  scanFuel matchAt n (n + 1 - i) i

/-- `str::lines`: split on `'\n'`, no trailing empty line, trailing `'\r'`
stripped from each line. -/
def rustLines (s : String) : List String :=
  if s = "" then []
  else
    let parts := strSplitOnChar '\n' s
    let parts := if parts.getLast? = some "" then parts.dropLast else parts
    parts.map (fun l => if strEndsWith l "\x0d" then strDropRight l 1 else l)

/-- Substring of a line by character offsets (`&line[a..b]`). -/
def sliceChars (line : List Char) (a b : Nat) : String :=
  String.mk ((line.drop a).take (b - a))

/-- One `SearchMatch` of `search_single_term`: cumulative positions, the
bounded context window (half before, half after), 1-based line number when
requested. -/
def mkSearchMatch (cfg : SearchConfig) (term : String) (line : List Char)
    (lineIdx curPos : Nat) (se : Nat × Nat) : SearchMatch :=
  let s := se.1
  let e := se.2
  let matchedText := sliceChars line s e
  let contextStart := if s > cfg.max_context_length / 2
    then s - cfg.max_context_length / 2 else 0
  let contextEnd := if e + cfg.max_context_length / 2 < line.length
    then e + cfg.max_context_length / 2 else line.length
  { term := term
    text := matchedText
    start_position := curPos + s
    end_position := curPos + e
    context := "..." ++ sliceChars line contextStart s ++ "[" ++ matchedText ++
      "]" ++ sliceChars line e contextEnd ++ "..."
    line_number := if cfg.include_line_numbers then some (lineIdx + 1) else none
    element_path := none }

/-- The per-line loop of `search_single_term`, carrying the line index and
the cumulative position (`current_pos += line.len() + 1`). -/
def searchLines (cfg : SearchConfig) (term : String) :
    List String → Nat → Nat → List SearchMatch
  | [], _, _ => []
  | line :: rest, lineIdx, curPos =>
    let lc := line.data
    let ms := scanFrom (termMatchAt cfg term.data lc) lc.length 0
    ms.map (mkSearchMatch cfg term lc lineIdx curPos) ++
      searchLines cfg term rest (lineIdx + 1) (curPos + lc.length + 1)

/-- `DomParser::search_single_term` (the pattern built from the escaped
term always compiles, so the source's error branch is dead). -/
def searchSingleTerm (html term : String) (cfg : SearchConfig) :
    List SearchMatch :=
  searchLines cfg term (rustLines html) 0 0

/-- `DomParser::search_content`: one `SearchResult` per term. -/
def searchContent (html : String) (terms : List String) (cfg : SearchConfig) :
    List SearchResult :=
  terms.map (fun t =>
    let ms := searchSingleTerm html t cfg
    { term := t, matchList := ms, total_matches := ms.length })

/-! ## Data transformer (`src/scraping/transformer.rs`) -/

/-- `TransformationError` (`transformer.rs`). -/
inductive TransformationError where
  | invalidFilter (msg : String)
  | mappingError (msg : String)
  | aggregationError (msg : String)
  | normalizationError (msg : String)
  | serializationError (msg : String)
deriving Inhabited

/-- `FilterOperator` (`transformer.rs`). -/
inductive FilterOperator where
  | equals
  | notEquals
  | greaterThan
  | lessThan
  | greaterThanOrEqual
  | lessThanOrEqual
  | contains
  | notContains
  | startsWith
  | endsWith
  | regex
deriving Inhabited

/-- `Filter` (`transformer.rs`); named `FilterCond` here because `Filter`
is taken by Mathlib. -/
structure FilterCond where
  field : String
  operator : FilterOperator
  value : Json

/-- `Mapping` (`transformer.rs`). -/
structure Mapping where
  from_field : String
  to_field : String
  transform_fn : Option String

/-- `item.get(field)` on a `Value`: a field of an object, `None` otherwise. -/
def Json.get (item : Json) (field : String) : Option Json :=
  match item with
  | .obj fs => lookupField fs field
  | _ => none

mutual

/-- Structural equality of `serde_json::Value` (`PartialEq`). -/
def Json.beq : Json → Json → Bool
  | .null, .null => true
  | .bool a, .bool b => a == b
  | .num a, .num b => a == b
  | .str a, .str b => a == b
  | .arr a, .arr b => Json.beqList a b
  | .obj a, .obj b => Json.beqFields a b
  | _, _ => false

/-- Element-wise equality of arrays. -/
def Json.beqList : List Json → List Json → Bool
  | [], [] => true
  | a :: as_, b :: bs => Json.beq a b && Json.beqList as_ bs
  | _, _ => false

/-- Entry-wise equality of objects. -/
def Json.beqFields : List (String × Json) → List (String × Json) → Bool
  | [], [] => true
  | (ka, va) :: as_, (kb, vb) :: bs => ka == kb && Json.beq va vb && Json.beqFields as_ bs
  | _, _ => false

end

/-- `DataTransformer::apply_filter`: a missing field is `false`; numeric
operators compare through `as_f64` and are `false` on non-numeric operands;
string operators are `false` (`NotContains`: `true`) on non-string
operands; `Regex` is `false` when the field is not a string or the pattern
does not compile. -/
def applyFilter (ext : Externals) (item : Json) (f : FilterCond) : Bool :=
  match item.get f.field with
  | none => false
  | some fv =>
    match f.operator with
    | .equals => Json.beq fv f.value
    | .notEquals => ! Json.beq fv f.value
    | .greaterThan =>
      match fv.asF64, f.value.asF64 with
      | some a, some b => a > b
      | _, _ => false
    | .lessThan =>
      match fv.asF64, f.value.asF64 with
      | some a, some b => a < b
      | _, _ => false
    | .greaterThanOrEqual =>
      match fv.asF64, f.value.asF64 with
      | some a, some b => a ≥ b
      | _, _ => false
    | .lessThanOrEqual =>
      match fv.asF64, f.value.asF64 with
      | some a, some b => a ≤ b
      | _, _ => false
    | .contains =>
      match fv.asStr, f.value.asStr with
      | some a, some b => strContains a b
      | _, _ => false
    | .notContains =>
      match fv.asStr, f.value.asStr with
      | some a, some b => ! strContains a b
      | _, _ => true
    | .startsWith =>
      match fv.asStr, f.value.asStr with
      | some a, some b => strStartsWith a b
      | _, _ => false
    | .endsWith =>
      match fv.asStr, f.value.asStr with
      | some a, some b => strEndsWith a b
      | _, _ => false
    | .regex =>
      match fv.asStr with
      | some a =>
        match f.value.asStr with
        | some pat =>
          match ext.compile pat with
          | some rx => rx.isMatch a
          | none => false
        | none => false
      | none => false

/-- `DataTransformer::filter`: a clone of the data, then one sequential
`retain` per filter (the source wraps the list in an always-`Ok` result). -/
def filterData (ext : Externals) (data : List Json) (filters : List FilterCond) :
    List Json :=
  filters.foldl (fun acc f => acc.filter (fun item => applyFilter ext item f)) data

/-- `DataTransformer::apply_simple_transform`. -/
def applySimpleTransform (ext : Externals) (value : Json) (fnName : String) :
    Except TransformationError Json :=
  if fnName = "uppercase" then
    match value.asStr with
    | some s => .ok (.str (strToUpper s))
    | none => .ok value
  else if fnName = "lowercase" then
    match value.asStr with
    | some s => .ok (.str (strToLower s))
    | none => .ok value
  else if fnName = "trim" then
    match value.asStr with
    | some s => .ok (.str (strTrim s))
    | none => .ok value
  else if fnName = "to_string" then .ok (.str (jsonRender ext value))
  else if fnName = "to_number" then
    match value.asF64 with
    | some q => .ok (.num q)
    | none =>
      match value.asStr with
      | some s =>
        match ext.parseF64 s with
        | some q => .ok (.num q)
        | none => .error (.mappingError ("Cannot convert '" ++ s ++ "' to number"))
      | none => .ok .null
  else .error (.mappingError ("Unknown transformation: " ++ fnName))

/-- The mapping loop of `DataTransformer::apply_mappings` over the working
object: when `from_field` is present in the working object, optionally
transform its value and insert it at `to_field`. -/
def applyMappingsLoop (ext : Externals) :
    List (String × Json) → List Mapping →
    Except TransformationError (List (String × Json))
  | fs, [] => .ok fs
  | fs, m :: ms =>
    match lookupField fs m.from_field with
    | some value =>
      match m.transform_fn with
      | some fnName => do
        let t ← applySimpleTransform ext value fnName
        applyMappingsLoop ext (insertField fs m.to_field t) ms
      | none => applyMappingsLoop ext (insertField fs m.to_field value) ms
    | none => applyMappingsLoop ext fs ms

/-- `DataTransformer::apply_mappings`: start from the record's object map
(empty for a non-object record), run the mapping loop, return the result
as an object. -/
def applyMappings (ext : Externals) (item : Json) (ms : List Mapping) :
    Except TransformationError Json :=
  let start := match item with
    | .obj fs => fs
    | _ => []
  (applyMappingsLoop ext start ms).map Json.obj

/-- `DataTransformer::map_fields`: `apply_mappings` on every record, the
first error aborting the call. -/
def mapFields (ext : Externals) (data : List Json) (ms : List Mapping) :
    Except TransformationError (List Json) :=
  data.mapM (fun item => applyMappings ext item ms)

/-! ## Batch processor (`src/scraping/batch.rs`)

Wall-clock time, task scheduling and the admission semaphore are runtime
behaviour; the embedding keeps their observable data: each spawned task
settles with one `SettledOutcome` (in completion order), and elapsed time
is a parameter. -/

/-- `BatchError` (`batch.rs`). -/
inductive BatchError where
  | processingError (msg : String)
  | rateLimitExceeded
  | timeoutError
  | channelError (msg : String)
deriving Inhabited

/-- The `Display` rendering of `BatchError` (`e.to_string()`, from the
`thiserror` attributes). -/
def BatchError.message : BatchError → String
  | .processingError msg => "Processing error: " ++ msg
  | .rateLimitExceeded => "Rate limit exceeded"
  | .timeoutError => "Timeout error"
  | .channelError msg => "Channel error: " ++ msg

/-- `ProcessingStatus` (`batch.rs`). -/
inductive ProcessingStatus where
  | pending
  | processing
  | success
  | failed
  | skipped
deriving Inhabited, DecidableEq

/-- `ProcessingItem` (`batch.rs`). -/
structure ProcessingItem where
  id : String
  data : Json
  status : ProcessingStatus
  error : Option String

/-- `BatchConfig` (`batch.rs`); the two `Duration` fields are kept in
milliseconds. -/
structure BatchConfig where
  batch_size : Nat
  max_concurrent : Nat
  rate_limit_rps : Option ℚ
  timeout_ms : Nat
  retry_count : Nat
  retry_delay_ms : Nat
  continue_on_error : Bool

/-- `BatchResult` (`batch.rs`); `success_rate` is modelled as a rational. -/
structure BatchResult where
  total_items : Nat
  processed_items : Nat
  failed_items : Nat
  skipped_items : Nat
  success_rate : ℚ
  processing_time_ms : Nat
  results : List ProcessingItem

/-- How one spawned task's handle settles in the drain loop of
`process_batch`: `Ok(Ok(item))`, `Ok(Err(e))` (a processing error
propagated out of the task), or `Err(join_error)`. -/
inductive SettledOutcome where
  | item (it : ProcessingItem) : SettledOutcome
  | procErr (e : BatchError) : SettledOutcome
  | joinErr (msg : String) : SettledOutcome

/-- The drain loop of `BatchProcessor::process_batch`: a settled item is
counted by its status (and only `Ok(Ok(_))` items are pushed to
`results`); a processing or join error counts as failed; with
`continue_on_error = false` the first failure encountered aborts the
batch. -/
def drainHandles (continueOnError : Bool) :
    List SettledOutcome → List ProcessingItem → Nat → Nat → Nat →
    Except BatchError (List ProcessingItem × Nat × Nat × Nat)
  | [], results, processed, failed, skipped => .ok (results, processed, failed, skipped)
  | .item it :: rest, results, processed, failed, skipped =>
    if it.status = .success then
      drainHandles continueOnError rest (results ++ [it]) (processed + 1) failed skipped
    else if it.status = .failed then
      if continueOnError then
        drainHandles continueOnError rest (results ++ [it]) processed (failed + 1) skipped
      else .error (.processingError (it.error.getD "Unknown error"))
    else
      drainHandles continueOnError rest (results ++ [it]) processed failed (skipped + 1)
  | .procErr e :: rest, results, processed, failed, skipped =>
    if continueOnError then
      drainHandles continueOnError rest results processed (failed + 1) skipped
    else .error e
  | .joinErr msg :: rest, results, processed, failed, skipped =>
    if continueOnError then
      drainHandles continueOnError rest results processed (failed + 1) skipped
    else .error (.channelError msg)

/-- `BatchProcessor::process_batch` after all tasks settle: drain the
handles, then aggregate counts, the success rate over the total item
count, and the elapsed wall time (a parameter here). -/
def processBatch (cfg : BatchConfig) (totalItems : Nat)
    (outcomes : List SettledOutcome) (elapsedMs : Nat) :
    Except BatchError BatchResult := do
  let (results, processed, failed, skipped) ←
    drainHandles cfg.continue_on_error outcomes [] 0 0 0
  .ok { total_items := totalItems
        processed_items := processed
        failed_items := failed
        skipped_items := skipped
        success_rate := ratePercent processed totalItems
        processing_time_ms := elapsedMs
        results := results }

/-- The retry loop of `BatchProcessor::process_item_with_retry`, driven by
`run`, the result of the `attempt`-th invocation of the processor function
on the item (the item is handed over with status `Processing`).  Returns
the source function's `Ok` payload together with the number of processor
invocations and the number of `retry_delay` sleeps taken.  The source
increments `attempt` after each failure and exhausts once
`attempt >= retry_count`. -/
def retryLoop (run : Nat → Except BatchError ProcessingItem)
    (item : ProcessingItem) (retryCount : Nat) (attempt : Nat) :
    ProcessingItem × Nat × Nat :=
  match run attempt with
  | .ok processedItem => (processedItem, 1, 0)
  | .error e =>
    if attempt + 1 ≥ retryCount then
      ({ item with status := .failed, error := some e.message }, 1, 0)
    else
      let rec_ := retryLoop run item retryCount (attempt + 1)
      (rec_.1, rec_.2.1 + 1, rec_.2.2 + 1)
termination_by retryCount - attempt

/-- `BatchProcessor::process_item_with_retry`: the loop starting at
attempt 0; the source never propagates a hard error — both exits return
`Ok` (modelled by returning the item directly, with the invocation and
sleep counts). -/
def processItemWithRetry (run : Nat → Except BatchError ProcessingItem)
    (item : ProcessingItem) (retryCount : Nat) : ProcessingItem × Nat × Nat :=
  retryLoop run item retryCount 0


/-! ## Concrete instances used by witnesses and counterexamples -/

/-- A concrete external-behaviour record for closed statements: every
pattern fails to compile (standing for a run in which the patterns used
are syntactically invalid, such as `"("`), floats never parse, numbers
render as `"0"`, attribute values render unchanged. -/
def extNone : Externals where
  compile := fun _ => none
  parseF64 := fun _ => none
  renderNum := fun _ => "0"
  attrRender := fun v => v

/-- A batch configuration with `continue_on_error` set, for closed batch
statements. -/
def cfgContinue : BatchConfig where
  batch_size := 100
  max_concurrent := 5
  rate_limit_rps := some 10
  timeout_ms := 30000
  retry_count := 3
  retry_delay_ms := 100
  continue_on_error := true

/-- A pending batch item. -/
def itemPending (i : String) : ProcessingItem where
  id := i
  data := .null
  status := .pending
  error := none

/-- Three settled outcomes — one success, one propagated processing error,
one skipped item — for the closed batch statement. -/
def outcomesMixed : List SettledOutcome :=
  [.item { itemPending "1" with status := .success },
   .procErr (.processingError "boom"),
   .item { itemPending "3" with status := .skipped }]

/-- A two-rule schema for closed extraction statements: the first rule
(`DateTime`) succeeds on the placeholder raw value, the second (`Integer`)
fails to parse it and is not required. -/
def schemaTwoRules : ExtractionSchema where
  name := "article"
  rules :=
    [{ name := "title", selector := ".title", attr := none,
       data_type := .dateTime, required := true, default_value := none,
       transformations := [], pattern := none },
     { name := "count", selector := ".count", attr := none,
       data_type := .integer, required := false, default_value := none,
       transformations := [], pattern := none }]
  root_selector := none
  multiple := false

/-- Whether a node is an element whose class list contains the token. -/
def nodeHasClass (cls : String) : Node → Bool
  | .text _ => false
  | .elem _ attrs _ => hasClassToken attrs cls

/-- Whether a node is an element with the given tag name. -/
def nodeHasTag (tagName : String) : Node → Bool
  | .text _ => false
  | .elem t _ _ => t = tagName

/-- Whether a node is an element whose `id` attribute equals the token. -/
def nodeHasId (idName : String) : Node → Bool
  | .text _ => false
  | .elem _ attrs _ => getAttr attrs "id" = some idName

/-- A document with two sibling elements bearing the same id. -/
def docTwoIds : List Node :=
  [.elem "html" [] [.elem "div" [("id", "x")] [], .elem "div" [("id", "x")] []]]

/-- A document with a unique id. -/
def docUniqueId : List Node :=
  [.elem "html" [] [.elem "div" [("id", "u")] []]]

/-- A document with no class attributes at all. -/
def docPlain : List Node := [.elem "html" [] []]

/-- A document whose single element carries an `href` attribute. -/
def docAnchor : List Node := [.elem "a" [("href", "u")] []]

/-! ## Claim theorems -/

/-- **C7.** For every finite sequence of records and every pair of filters
`f1`, `f2`, `DataTransformer::filter` applied with `[f1, f2]` returns
exactly the records satisfying both predicates, and equals filtering with
`[f1]` followed by filtering that result with `[f2]` (conjunctive AND via
sequential `retain`, order-preserving — both sides are `List.filter`,
which preserves order). -/
theorem claim7_filter_conjunction (ext : Externals) (data : List Json)
    (f1 f2 : FilterCond) :
    filterData ext data [f1, f2] =
      data.filter (fun r => applyFilter ext r f1 && applyFilter ext r f2) ∧
    filterData ext data [f1, f2] =
      filterData ext (filterData ext data [f1]) [f2] := by
  refine ⟨?_, rfl⟩
  show (data.filter fun r => applyFilter ext r f1).filter
      (fun r => applyFilter ext r f2) = _
  rw [List.filter_filter]
  exact List.filter_congr (fun x _ => Bool.and_comm _ _)

/-- **C8.** Over the text `"error errors"` with search term `"error"`,
`search_content` reports exactly 1 match with `whole_words = true` and
exactly 2 matches with `whole_words = false` (both under the remaining
default search configuration). -/
theorem claim8_search_word_boundary :
    (searchContent "error errors" ["error"]
        { SearchConfig.default with whole_words := true }).map
      SearchResult.total_matches = [1] ∧
    (searchContent "error errors" ["error"]
        { SearchConfig.default with whole_words := false }).map
      SearchResult.total_matches = [2] := by
  constructor <;> decide

/-- **C6 (counterexample).** The claim says a `regex:` transformation with
an invalid pattern "returns the whole input string".  With an invalid
pattern (modelled by `extNone`, where compilation fails as it does for
`"("`) on the input `"a\nb"`, `apply_regex` returns `"a"` — the fallback
`".*"`'s group 0 stops at the newline — which is not the whole input. -/
theorem claim6_invalid_regex_counterexample :
    applyRegex extNone (.str "a\nb") "(" = .ok (.str "a") ∧
      ("a" : String) ≠ "a\nb" := by
  refine ⟨rfl, by decide⟩

/-- **C6 (amended).** For every pattern that fails to compile, the
extractor substitutes the match-all pattern `".*"` instead of propagating
a compile error: pattern validation then succeeds for every value, and a
`regex:` transformation returns the input string's maximal prefix of
non-newline characters — the whole input string exactly when the input
contains no newline. -/
theorem claim6_invalid_regex_fallback (ext : Externals) (p : String)
    (h : ext.compile p = none) :
    (∀ v : Json, validatePattern ext v p = .ok ()) ∧
    (∀ s : String, applyRegex ext (.str s) p =
      .ok (.str (String.mk (s.data.takeWhile (fun c => c ≠ '\n'))))) ∧
    (∀ s : String, s.data.all (fun c => c ≠ '\n') = true →
      applyRegex ext (.str s) p = .ok (.str s)) := by
  refine ⟨?_, ?_, ?_⟩
  · intro v
    simp [validatePattern, h, dotStar]
  · intro s
    simp [applyRegex, h, dotStar, Json.asStrD]
  · intro s hs
    have htw : List.takeWhile (fun c => !decide (c = '\n')) s.data = s.data :=
      List.takeWhile_eq_self_iff.mpr (by
        intro x hx
        simpa using List.all_eq_true.mp hs x hx)
    simp [applyRegex, h, dotStar, Json.asStrD, htw]

/-- **C6 (witness).** The amended fallback behaviour at the concrete
engine `extNone`, pattern `"("`, value `"abc"`. -/
theorem claim6_invalid_regex_fallback_witness :
    validatePattern extNone (.str "abc") "(" = .ok () ∧
      applyRegex extNone (.str "abc") "(" = .ok (.str "abc") := by
  have h := claim6_invalid_regex_fallback extNone "(" rfl
  exact ⟨h.1 _, h.2.2 "abc" (by decide)⟩

/-- With `continue_on_error = true` the drain loop of `process_batch`
never aborts, and every settled handle increments exactly one of the three
counters: the final counter total grows by exactly the number of drained
outcomes. -/
theorem drainHandles_continue (outs : List SettledOutcome) :
    ∀ results processed failed skipped,
    ∃ rs p f k,
      drainHandles true outs results processed failed skipped = .ok (rs, p, f, k) ∧
      p + f + k = processed + failed + skipped + outs.length := by
  induction outs with
  | nil => exact fun r p f k => ⟨r, p, f, k, rfl, by simp⟩
  | cons o rest ih =>
    intro results processed failed skipped
    cases o with
    | item it =>
      by_cases h1 : it.status = ProcessingStatus.success
      · obtain ⟨rs, p, f, k, heq, hsum⟩ :=
          ih (results ++ [it]) (processed + 1) failed skipped
        exact ⟨rs, p, f, k, by simp [drainHandles, h1, heq],
          by simp only [List.length_cons]; omega⟩
      · by_cases h2 : it.status = ProcessingStatus.failed
        · obtain ⟨rs, p, f, k, heq, hsum⟩ :=
            ih (results ++ [it]) processed (failed + 1) skipped
          exact ⟨rs, p, f, k, by simp [drainHandles, h1, h2, heq],
            by simp only [List.length_cons]; omega⟩
        · obtain ⟨rs, p, f, k, heq, hsum⟩ :=
            ih (results ++ [it]) processed failed (skipped + 1)
          exact ⟨rs, p, f, k, by simp [drainHandles, h1, h2, heq],
            by simp only [List.length_cons]; omega⟩
    | procErr e =>
      obtain ⟨rs, p, f, k, heq, hsum⟩ := ih results processed (failed + 1) skipped
      exact ⟨rs, p, f, k, by simp [drainHandles, heq],
        by simp only [List.length_cons]; omega⟩
    | joinErr msg =>
      obtain ⟨rs, p, f, k, heq, hsum⟩ := ih results processed (failed + 1) skipped
      exact ⟨rs, p, f, k, by simp [drainHandles, heq],
        by simp only [List.length_cons]; omega⟩

/-- **C2.** For every batch of `N` items processed by
`BatchProcessor::process_batch` with `continue_on_error = true` (each of
the `N` spawned tasks settling with exactly one outcome), the returned
`BatchResult` satisfies
`processed_items + failed_items + skipped_items = N` — each settled handle
increments exactly one of the three counters — and
`success_rate = processed_items / N * 100` (`0` when `N = 0`). -/
theorem claim2_batch_conservation (cfg : BatchConfig) (N : Nat)
    (outs : List SettledOutcome) (elapsedMs : Nat)
    (hc : cfg.continue_on_error = true) (hN : outs.length = N) :
    ∃ br, processBatch cfg N outs elapsedMs = .ok br ∧
      br.total_items = N ∧
      br.processed_items + br.failed_items + br.skipped_items = N ∧
      (0 < N → br.success_rate = (br.processed_items : ℚ) / (N : ℚ) * 100) ∧
      (N = 0 → br.success_rate = 0) := by
  obtain ⟨rs, p, f, k, heq, hsum⟩ := drainHandles_continue outs [] 0 0 0
  have hpfk : p + f + k = N := by omega
  have hpb : processBatch cfg N outs elapsedMs =
      .ok { total_items := N, processed_items := p, failed_items := f,
            skipped_items := k, success_rate := ratePercent p N,
            processing_time_ms := elapsedMs, results := rs } := by
    unfold processBatch
    rw [hc, heq]
    rfl
  refine ⟨_, hpb, rfl, hpfk, ?_, ?_⟩
  · intro hpos
    simp [ratePercent, hpos]
  · intro h0
    simp [ratePercent, h0]

/-- **C2 (witness).** The conservation law at a concrete mixed batch of
three outcomes (one success, one propagated error, one skipped). -/
theorem claim2_batch_conservation_witness :
    ∃ br, processBatch cfgContinue 3 outcomesMixed 5 = .ok br ∧
      br.processed_items + br.failed_items + br.skipped_items = 3 := by
  obtain ⟨br, heq, _, hsum, _, _⟩ :=
    claim2_batch_conservation cfgContinue 3 outcomesMixed 5 rfl rfl
  exact ⟨br, heq, hsum⟩

/-- When every invocation of the processor function fails, the retry loop
returns the item marked `Failed` with its error set, having made
`max (retryCount - attempt) 1` invocations and slept between consecutive
attempts. -/
theorem retryLoop_allFail (run : Nat → Except BatchError ProcessingItem)
    (item : ProcessingItem) (retryCount : Nat)
    (h : ∀ n, ∃ e, run n = .error e) :
    ∀ attempt, ∃ msg,
      retryLoop run item retryCount attempt =
        ({ item with status := .failed, error := some msg },
          max (retryCount - attempt) 1, max (retryCount - attempt) 1 - 1) := by
  intro attempt
  generalize hk : retryCount - attempt = k
  induction k generalizing attempt with
  | zero =>
    obtain ⟨e, he⟩ := h attempt
    refine ⟨e.message, ?_⟩
    unfold retryLoop
    rw [he]
    have hge : attempt + 1 ≥ retryCount := by omega
    simp [hge]
  | succ k ih =>
    obtain ⟨e, he⟩ := h attempt
    by_cases hge : attempt + 1 ≥ retryCount
    · refine ⟨e.message, ?_⟩
      unfold retryLoop
      rw [he]
      have hk1 : k = 0 := by omega
      simp [hge, hk1]
    · obtain ⟨msg, hrec⟩ := ih (attempt + 1) (by omega)
      refine ⟨msg, ?_⟩
      unfold retryLoop
      rw [he]
      simp only [hge, if_neg, ite_false]
      rw [hrec]
      have e1 : k ⊔ 1 = k := by omega
      have e2 : k - 1 + 1 = k := by omega
      have e3 : (k + 1) ⊔ 1 = k + 1 := by omega
      have e4 : (retryCount - attempt) ⊔ 1 = k + 1 := by omega
      have e5 : k + 1 - 1 = k := by omega
      simp [e1, e2, e3, e4, e5]

/-- **C5.** For every batch item whose processor function fails on every
attempt, `process_item_with_retry` makes `max(retry_count, 1)` attempts —
at most `retry_count`, so it retries (re-invokes after a failure) at most
`retry_count` times — sleeping `retry_delay` between consecutive attempts
(the sleep count is one less than the attempt count), and after exhausting
the retries returns the item with status `Failed` and its error field set;
in the source both exits of the loop return `Ok`, never a propagated hard
error, which the model reflects by returning the item directly. -/
theorem claim5_retry_exhaustion (run : Nat → Except BatchError ProcessingItem)
    (item : ProcessingItem) (retryCount : Nat)
    (h : ∀ n, ∃ e, run n = .error e) :
    ∃ msg,
      processItemWithRetry run item retryCount =
        ({ item with status := .failed, error := some msg },
          max retryCount 1, max retryCount 1 - 1) ∧
      max retryCount 1 ≤ max retryCount 1 ∧
      max retryCount 1 - 1 ≤ retryCount := by
  obtain ⟨msg, hr⟩ := retryLoop_allFail run item retryCount h 0
  refine ⟨msg, ?_, le_refl _, by omega⟩
  simpa [processItemWithRetry] using hr

/-- **C5 (witness).** The exhaustion behaviour at a concrete
always-failing processor with `retry_count = 3`: three attempts, two
sleeps, item returned `Failed`. -/
theorem claim5_retry_exhaustion_witness :
    ∃ msg,
      processItemWithRetry (fun _ => .error (.processingError "boom"))
          (itemPending "w") 3 =
        ({ itemPending "w" with status := .failed, error := some msg },
          max 3 1, max 3 1 - 1) ∧
      max 3 1 ≤ max 3 1 ∧
      max 3 1 - 1 ≤ 3 :=
  claim5_retry_exhaustion (fun _ => .error (.processingError "boom"))
    (itemPending "w") 3 (fun _ => ⟨.processingError "boom", rfl⟩)

/-- Insertion leaves every other key's lookup unchanged. -/
theorem lookupField_insertField_ne (fs : List (String × Json)) (key k' : String)
    (v : Json) (h : k' ≠ key) :
    lookupField (insertField fs key v) k' = lookupField fs k' := by
  induction fs with
  | nil => simp [insertField, lookupField, Ne.symm h]
  | cons p rest ih =>
    obtain ⟨k0, v0⟩ := p
    by_cases hk : k0 = key
    · subst hk
      simp only [insertField, if_pos rfl]
      simp [lookupField, Ne.symm h]
    · simp only [insertField, if_neg hk]
      by_cases hk' : k0 = k'
      · simp [lookupField, hk']
      · simp [lookupField, hk', ih]

/-- Insertion makes the inserted key's lookup the inserted value. -/
theorem lookupField_insertField_self (fs : List (String × Json)) (key : String)
    (v : Json) :
    lookupField (insertField fs key v) key = some v := by
  induction fs with
  | nil => simp [insertField, lookupField]
  | cons p rest ih =>
    obtain ⟨k0, v0⟩ := p
    by_cases hk : k0 = key
    · simp [insertField, lookupField, hk]
    · simp [insertField, lookupField, hk, ih]

/-- Insertion never removes a present key. -/
theorem lookupField_insertField_isSome (fs : List (String × Json))
    (key k' : String) (v : Json) (h : (lookupField fs k').isSome) :
    (lookupField (insertField fs key v) k').isSome := by
  by_cases hk : k' = key
  · subst hk
    simp [lookupField_insertField_self]
  · rwa [lookupField_insertField_ne fs key k' v hk]

/-- The mapping loop never changes the lookup of a key that is not the
`to_field` of any mapping. -/
theorem applyMappingsLoop_frame (ext : Externals) (ms : List Mapping) :
    ∀ fs fs', applyMappingsLoop ext fs ms = .ok fs' →
      ∀ k, (∀ m ∈ ms, k ≠ m.to_field) → lookupField fs' k = lookupField fs k := by
  induction ms with
  | nil =>
    intro fs fs' heq k _
    cases heq
    rfl
  | cons m rest ih =>
    intro fs fs' heq k hk
    have hkm : k ≠ m.to_field := hk m (by simp)
    have hkrest : ∀ m' ∈ rest, k ≠ m'.to_field := fun m' hm' => hk m' (by simp [hm'])
    rw [applyMappingsLoop] at heq
    cases hlook : lookupField fs m.from_field with
    | none =>
      rw [hlook] at heq
      exact ih fs fs' heq k hkrest
    | some v =>
      rw [hlook] at heq
      cases htf : m.transform_fn with
      | none =>
        rw [htf] at heq
        have := ih _ _ heq k hkrest
        rwa [lookupField_insertField_ne fs m.to_field k v hkm] at this
      | some fnName =>
        rw [htf] at heq
        simp only [] at heq
        cases hts : applySimpleTransform ext v fnName with
        | error e =>
          rw [hts] at heq
          cases heq
        | ok t =>
          rw [hts] at heq
          have := ih _ _ heq k hkrest
          rwa [lookupField_insertField_ne fs m.to_field k t hkm] at this

/-- The mapping loop never removes a present key. -/
theorem applyMappingsLoop_isSome (ext : Externals) (ms : List Mapping) :
    ∀ fs fs', applyMappingsLoop ext fs ms = .ok fs' →
      ∀ k, (lookupField fs k).isSome → (lookupField fs' k).isSome := by
  induction ms with
  | nil =>
    intro fs fs' heq k h
    cases heq
    exact h
  | cons m rest ih =>
    intro fs fs' heq k h
    rw [applyMappingsLoop] at heq
    cases hlook : lookupField fs m.from_field with
    | none =>
      rw [hlook] at heq
      exact ih fs fs' heq k h
    | some v =>
      rw [hlook] at heq
      cases htf : m.transform_fn with
      | none =>
        rw [htf] at heq
        exact ih _ _ heq k (lookupField_insertField_isSome fs m.to_field k v h)
      | some fnName =>
        rw [htf] at heq
        simp only [] at heq
        cases hts : applySimpleTransform ext v fnName with
        | error e =>
          rw [hts] at heq
          cases heq
        | ok t =>
          rw [hts] at heq
          exact ih _ _ heq k (lookupField_insertField_isSome fs m.to_field k t h)

/-- Mappings whose `from_field` is absent all skip, leaving the object
unchanged. -/
theorem applyMappingsLoop_skip (ext : Externals) (ms : List Mapping)
    (fs : List (String × Json))
    (h : ∀ m ∈ ms, lookupField fs m.from_field = none) :
    applyMappingsLoop ext fs ms = .ok fs := by
  induction ms with
  | nil => rfl
  | cons m rest ih =>
    rw [applyMappingsLoop, h m (by simp)]
    exact ih (fun m' hm' => h m' (by simp [hm']))

/-- **C9.** `DataTransformer::map_fields` (per record:
`apply_mappings`) is additive on records (objects): when `from_field` is
present its value is (optionally transformed and) written to `to_field`;
`from_field` is never removed and, whenever a key is not the `to_field` of
any mapping, it retains its original value (in particular a `from_field`
different from every `to_field` does); every field not named as some
`to_field` is unchanged; and a mapping list all of whose `from_field`s are
absent leaves the record unchanged.  `map_fields` itself is
`apply_mappings` applied per record. -/
theorem claim9_map_fields_additive (ext : Externals)
    (fs : List (String × Json)) (ms : List Mapping) :
    (∀ fs', applyMappings ext (.obj fs) ms = .ok (.obj fs') →
      (∀ k, (∀ m ∈ ms, k ≠ m.to_field) → lookupField fs' k = lookupField fs k) ∧
      (∀ k, (lookupField fs k).isSome → (lookupField fs' k).isSome)) ∧
    ((∀ m ∈ ms, lookupField fs m.from_field = none) →
      applyMappings ext (.obj fs) ms = .ok (.obj fs)) ∧
    (∀ m v, lookupField fs m.from_field = some v → m.transform_fn = none →
      applyMappings ext (.obj fs) [m] = .ok (.obj (insertField fs m.to_field v))) ∧
    (mapFields ext [Json.obj fs] ms =
      (applyMappings ext (.obj fs) ms).map (fun r => [r])) := by
  refine ⟨?_, ?_, ?_, ?_⟩
  · intro fs' heq
    have hloop : applyMappingsLoop ext fs ms = .ok fs' := by
      unfold applyMappings at heq
      simp only [] at heq
      cases hl : applyMappingsLoop ext fs ms with
      | error e =>
        rw [hl] at heq
        simp [Except.map] at heq
      | ok out =>
        rw [hl] at heq
        simp only [Except.map, Except.ok.injEq, Json.obj.injEq] at heq
        rw [heq]
    exact ⟨fun k hk => applyMappingsLoop_frame ext ms fs fs' hloop k hk,
           fun k h => applyMappingsLoop_isSome ext ms fs fs' hloop k h⟩
  · intro h
    unfold applyMappings
    simp only []
    rw [applyMappingsLoop_skip ext ms fs h]
    rfl
  · intro m v hlook htf
    simp [applyMappings, applyMappingsLoop, hlook, htf, Except.map]
  · unfold mapFields
    cases ha : applyMappings ext (.obj fs) ms with
    | error e =>
      simp [List.mapM, List.mapM.loop, ha, Except.map, Except.bind, Except.pure]
    | ok r =>
      simp [List.mapM, List.mapM.loop, ha, Except.map, Except.bind, Except.pure]

/-- **C9 (witness).** The additive write at a concrete record
`{"a": "x"}` and mapping `a → b` without transform. -/
theorem claim9_map_fields_additive_witness :
    applyMappings extNone (.obj [("a", .str "x")])
        [{ from_field := "a", to_field := "b", transform_fn := none }] =
      .ok (.obj (insertField [("a", .str "x")] "b" (.str "x"))) :=
  (claim9_map_fields_additive extNone [("a", .str "x")]
      [{ from_field := "a", to_field := "b", transform_fn := none }]).2.2.1
    { from_field := "a", to_field := "b", transform_fn := none }
    (.str "x") rfl rfl

/-- The rule loop of `extract` under the no-abort hypothesis: it returns
`Ok`, adding to the counters exactly the number of succeeding and the
number of failing rules. -/
theorem extractLoop_spec (ext : Externals) (cfg : ExtractorConfig)
    (data : String) :
    ∀ (rules : List FieldRule) (acc : List (String × Json)) (succ failed : Nat),
    (∀ r ∈ rules, (extractField ext cfg data r).isOk = false →
      ¬(r.required = true ∧ cfg.strict_mode = true)) →
    ∃ acc',
      extractLoop ext cfg data rules acc succ failed =
        .ok (acc',
          succ + rules.countP (fun r => (extractField ext cfg data r).isOk),
          failed + rules.countP (fun r => !(extractField ext cfg data r).isOk)) := by
  intro rules
  induction rules with
  | nil =>
    intro acc succ failed _
    exact ⟨acc, by simp [extractLoop]⟩
  | cons r rs ih =>
    intro acc succ failed h
    cases hr : extractField ext cfg data r with
    | ok v =>
      have hOk : (extractField ext cfg data r).isOk = true := by
        rw [hr]; rfl
      obtain ⟨acc', hrec⟩ := ih (insertField acc r.name v) (succ + 1) failed
        (fun r' hm hfail => h r' (by simp [hm]) hfail)
      refine ⟨acc', ?_⟩
      rw [extractLoop, hr]
      simp only []
      rw [hrec]
      refine congrArg Except.ok ?_
      simp only [List.countP_cons, hOk, hr]
      refine Prod.ext ?_ (Prod.ext ?_ ?_) <;> simp [Except.isOk, Except.toBool] <;> omega
    | error e =>
      have hFail : (extractField ext cfg data r).isOk = false := by
        rw [hr]; rfl
      have hno : ¬(r.required = true ∧ cfg.strict_mode = true) :=
        h r (by simp) hFail
      have hrest : ∀ r' ∈ rs, (extractField ext cfg data r').isOk = false →
          ¬(r'.required = true ∧ cfg.strict_mode = true) :=
        fun r' hm hfail => h r' (by simp [hm]) hfail
      cases hd : r.default_value with
      | some d =>
        obtain ⟨acc', hrec⟩ := ih (insertField acc r.name d) succ (failed + 1) hrest
        refine ⟨acc', ?_⟩
        rw [extractLoop, hr]
        simp only [] 
        rw [if_neg hno, hd]
        simp only []
        rw [hrec]
        refine congrArg Except.ok ?_
        simp only [List.countP_cons, hFail]
        refine Prod.ext ?_ (Prod.ext ?_ ?_) <;> simp [Except.isOk, Except.toBool, hr] <;> omega
      | none =>
        obtain ⟨acc', hrec⟩ := ih acc succ (failed + 1) hrest
        refine ⟨acc', ?_⟩
        rw [extractLoop, hr]
        simp only []
        rw [if_neg hno, hd]
        simp only []
        rw [hrec]
        refine congrArg Except.ok ?_
        simp only [List.countP_cons, hFail]
        refine Prod.ext ?_ (Prod.ext ?_ ?_) <;> simp [Except.isOk, Except.toBool, hr] <;> omega

/-- **C1.** For every extraction schema with `R` rules applied by
`DataExtractor::extract`, where `F` rules fail and `R - F` succeed and no
required+strict abort occurs, the returned `ExtractionResult` satisfies
`fields_extracted = R - F`, `fields_failed = F`, and
`success_rate = (R - F) / R * 100` exactly (in the rational model of the
`f64` arithmetic), and `success_rate = 0` when the schema has zero
rules. -/
theorem claim1_extract_success_rate (ext : Externals) (cfg : ExtractorConfig)
    (now data : String) (schema : ExtractionSchema)
    (h : ∀ r ∈ schema.rules, (extractField ext cfg data r).isOk = false →
      ¬(r.required = true ∧ cfg.strict_mode = true)) :
    ∃ res, extract ext cfg now data schema = .ok res ∧
      res.fields_failed =
        schema.rules.countP (fun r => !(extractField ext cfg data r).isOk) ∧
      res.fields_extracted = schema.rules.length - res.fields_failed ∧
      res.fields_extracted + res.fields_failed = schema.rules.length ∧
      (0 < schema.rules.length → res.success_rate =
        (res.fields_extracted : ℚ) / (schema.rules.length : ℚ) * 100) ∧
      (schema.rules.length = 0 → res.success_rate = 0) := by
  obtain ⟨acc', hrec⟩ := extractLoop_spec ext cfg data schema.rules [] 0 0 h
  simp only [Nat.zero_add] at hrec
  have hsum : schema.rules.countP (fun r => (extractField ext cfg data r).isOk) +
      schema.rules.countP (fun r => !(extractField ext cfg data r).isOk) =
      schema.rules.length := by
    have hlen := List.length_eq_countP_add_countP
      (fun r => (extractField ext cfg data r).isOk) schema.rules
    have hcongr : schema.rules.countP
        (fun r => decide ¬(extractField ext cfg data r).isOk = true) =
        schema.rules.countP (fun r => !(extractField ext cfg data r).isOk) :=
      List.countP_congr (fun r _ => by
        cases (extractField ext cfg data r).isOk <;> simp)
    omega
  have hx : extract ext cfg now data schema =
      .ok { data := .obj acc'
            extracted_at := now
            schema_name := schema.name
            fields_extracted :=
              schema.rules.countP (fun r => (extractField ext cfg data r).isOk)
            fields_failed :=
              schema.rules.countP (fun r => !(extractField ext cfg data r).isOk)
            success_rate := ratePercent
              (schema.rules.countP (fun r => (extractField ext cfg data r).isOk))
              (schema.rules.countP (fun r => (extractField ext cfg data r).isOk) +
               schema.rules.countP (fun r => !(extractField ext cfg data r).isOk)) } := by
    unfold extract
    rw [hrec]
    rfl
  refine ⟨_, hx, rfl, by simp only; omega, by simp only; omega, ?_, ?_⟩
  · intro hpos
    simp only
    rw [hsum]
    simp [ratePercent, hpos]
  · intro h0
    simp only
    rw [hsum]
    simp [ratePercent, h0]

/-- **C1 (witness).** The success-rate invariant at the concrete two-rule
schema: one success, one non-required failure, rate 50%. -/
theorem claim1_extract_success_rate_witness :
    ∃ res, extract extNone ExtractorConfig.default "t" "" schemaTwoRules = .ok res ∧
      res.fields_failed = 1 ∧
      res.fields_extracted = 1 ∧
      res.success_rate = (1 : ℚ) / 2 * 100 := by
  obtain ⟨res, hok, hf, he, hsum, hrate, _⟩ :=
    claim1_extract_success_rate extNone ExtractorConfig.default "t" ""
      schemaTwoRules (by decide)
  have hf1 : res.fields_failed = 1 := by rw [hf]; decide
  have he1 : res.fields_extracted = 1 := by
    rw [he, hf1]
    decide
  refine ⟨res, hok, hf1, he1, ?_⟩
  have := hrate (by decide)
  rw [he1] at this
  simpa using this

/-- Every escaped character is at least one character long. -/
theorem jsonEscapeChar_length_pos (c : Char) : 1 ≤ (jsonEscapeChar c).length := by
  unfold jsonEscapeChar
  split_ifs <;> simp

/-- Escaping does not shorten a character list. -/
theorem escapeFlatten_ge (l : List Char) :
    l.length ≤ ((l.map jsonEscapeChar).flatten).length := by
  induction l with
  | nil => simp
  | cons c cs ih =>
    have := jsonEscapeChar_length_pos c
    simp only [List.map_cons, List.flatten_cons, List.length_append,
      List.length_cons]
    omega

/-- The serialized string is two characters longer than its escaped body. -/
theorem jsonQuote_length (s : String) :
    (jsonQuote s).length = ((s.data.map jsonEscapeChar).flatten).length + 2 := by
  show ('"' :: (s.data.map jsonEscapeChar).flatten ++ ['"']).length = _
  simp

/-- Quote-wrapping never returns the input string itself. -/
theorem jsonQuote_ne (s : String) : jsonQuote s ≠ s := by
  intro h
  have hl := congrArg String.length h
  rw [jsonQuote_length] at hl
  have h2 := escapeFlatten_ge s.data
  have h3 : s.length = s.data.length := rfl
  omega

/-- `convert_type` at target `String` serializes the value. -/
theorem convertType_string (ext : Externals) (v : Json) :
    convertType ext v .string = .ok (.str (jsonRender ext v)) := rfl

/-- **C10.** For every JSON string value `v`, coercing `v` to data type
`String` in `convert_type` — and hence the output of every succeeding
`extract_field` call whose rule has data type `String` — yields the
JSON-serialized representation: the string wrapped in double quotes
(`"abc"` becomes `"\"abc\""`); `String` coercion never fails, but it never
returns the input string unchanged (in particular not when the input is a
non-empty string). -/
theorem claim10_string_coercion_serializes (ext : Externals) (s : String)
    (h : s ≠ "") :
    convertType ext (.str s) .string = .ok (.str (jsonRender ext (.str s))) ∧
    jsonRender ext (.str s) = jsonQuote s ∧
    (∀ v : Json, ∃ w, convertType ext v .string = .ok (.str w)) ∧
    jsonRender ext (.str s) ≠ s ∧
    jsonRender ext (.str "abc") = "\"abc\"" ∧
    (∀ (cfg : ExtractorConfig) (data : String) (rule : FieldRule) (out : Json),
      rule.data_type = .string → extractField ext cfg data rule = .ok out →
      ∃ w, out = .str (jsonRender ext w)) := by
  refine ⟨rfl, by simp [jsonRender], fun v => ⟨jsonRender ext v, rfl⟩, ?_, ?_, ?_⟩
  · simp only [jsonRender]
    exact jsonQuote_ne s
  · simp only [jsonRender]
    decide
  · intro cfg data rule out hdt heq
    unfold extractField at heq
    simp only [extractRawValue, bind, Except.bind] at heq
    cases hT : applyTransformations ext (.str ("extracted_" ++ rule.name))
        rule.transformations with
    | error e =>
      rw [hT] at heq
      cases heq
    | ok value =>
      rw [hT] at heq
      simp only [] at heq
      cases hp : rule.pattern with
      | none =>
        rw [hp] at heq
        rw [hdt, convertType_string] at heq
        cases heq
        exact ⟨value, rfl⟩
      | some p =>
        rw [hp] at heq
        simp only [] at heq
        by_cases hv : cfg.validate_patterns = true
        · rw [if_pos hv] at heq
          cases hV : validatePattern ext value p with
          | error e =>
            rw [hV] at heq
            cases heq
          | ok u =>
            rw [hV] at heq
            simp only [] at heq
            rw [hdt, convertType_string] at heq
            cases heq
            exact ⟨value, rfl⟩
        · rw [if_neg hv] at heq
          rw [hdt, convertType_string] at heq
          cases heq
          exact ⟨value, rfl⟩

/-- **C10 (witness).** The quote-wrapping behaviour at the concrete string
`"abc"`. -/
theorem claim10_string_coercion_serializes_witness :
    convertType extNone (.str "abc") DataType.string =
      .ok (.str (jsonRender extNone (.str "abc"))) ∧
    jsonRender extNone (.str "abc") = "\"abc\"" ∧
    jsonRender extNone (.str "abc") ≠ "abc" := by
  obtain ⟨h1, _, _, h4, h5, _⟩ :=
    claim10_string_coercion_serializes extNone "abc" (by decide)
  exact ⟨h1, h5, h4⟩

mutual

/-- `find_by_class` on a tree returns exactly the pre-order matching
elements. -/
theorem findByClass_eq (cls : String) : (n : Node) →
    findByClass cls n = (elemsPre n).filter (nodeHasClass cls)
  | .text s => by simp [findByClass, elemsPre]
  | .elem t attrs cs => by
    by_cases h : hasClassToken attrs cls
    · simp [findByClass, elemsPre, List.filter_cons, nodeHasClass, h,
        findByClassF_eq cls cs]
    · simp [findByClass, elemsPre, List.filter_cons, nodeHasClass, h,
        findByClassF_eq cls cs]

/-- `find_by_class` on a forest returns exactly the pre-order matching
elements. -/
theorem findByClassF_eq (cls : String) : (l : List Node) →
    findByClassF cls l = (elemsPreF l).filter (nodeHasClass cls)
  | [] => by simp [findByClassF, elemsPreF]
  | c :: cs => by
    simp [findByClassF, elemsPreF, List.filter_append,
      findByClass_eq cls c, findByClassF_eq cls cs]

end

mutual

/-- `find_by_tag` on a tree returns exactly the pre-order matching
elements. -/
theorem findByTag_eq (tagName : String) : (n : Node) →
    findByTag tagName n = (elemsPre n).filter (nodeHasTag tagName)
  | .text s => by simp [findByTag, elemsPre]
  | .elem t attrs cs => by
    by_cases h : t = tagName
    · simp [findByTag, elemsPre, List.filter_cons, nodeHasTag, h,
        findByTagF_eq tagName cs]
    · simp [findByTag, elemsPre, List.filter_cons, nodeHasTag, h,
        findByTagF_eq tagName cs]

/-- `find_by_tag` on a forest returns exactly the pre-order matching
elements. -/
theorem findByTagF_eq (tagName : String) : (l : List Node) →
    findByTagF tagName l = (elemsPreF l).filter (nodeHasTag tagName)
  | [] => by simp [findByTagF, elemsPreF]
  | c :: cs => by
    simp [findByTagF, elemsPreF, List.filter_append,
      findByTag_eq tagName c, findByTagF_eq tagName cs]

end

mutual

/-- `find_by_id` on a tree returns an order-preserving subsequence of the
pre-order matching elements (the match's own subtree is pruned, nothing
else). -/
theorem findById_sublist (i : String) : (n : Node) →
    (findById i n).Sublist ((elemsPre n).filter (nodeHasId i))
  | .text s => by simp [findById, elemsPre]
  | .elem t attrs cs => by
    by_cases h : getAttr attrs "id" = some i
    · simp only [findById, if_pos h, elemsPre, List.filter_cons]
      have hp : nodeHasId i (Node.elem t attrs cs) = true := by
        simp [nodeHasId, h]
      rw [if_pos hp]
      exact (List.nil_sublist _).cons₂ _
    · simp only [findById, if_neg h, elemsPre, List.filter_cons]
      have hp : nodeHasId i (Node.elem t attrs cs) = false := by
        simp [nodeHasId, h]
      rw [if_neg (by simp [hp])]
      exact findByIdF_sublist i cs

/-- `find_by_id` on a forest returns an order-preserving subsequence of
the pre-order matching elements. -/
theorem findByIdF_sublist (i : String) : (l : List Node) →
    (findByIdF i l).Sublist ((elemsPreF l).filter (nodeHasId i))
  | [] => by simp [findByIdF, elemsPreF]
  | c :: cs => by
    simp only [findByIdF, elemsPreF, List.filter_append]
    exact (findById_sublist i c).append (findByIdF_sublist i cs)

end

mutual

/-- When at most one element of a tree bears the id, `find_by_id` returns
exactly the pre-order matches (hence the first match when ids are
unique). -/
theorem findById_eq_of_unique (i : String) : (n : Node) →
    ((elemsPre n).filter (nodeHasId i)).length ≤ 1 →
    findById i n = (elemsPre n).filter (nodeHasId i)
  | .text s => by simp [findById, elemsPre]
  | .elem t attrs cs => by
    intro hlen
    by_cases h : getAttr attrs "id" = some i
    · have hp : nodeHasId i (Node.elem t attrs cs) = true := by
        simp [nodeHasId, h]
      simp only [elemsPre, List.filter_cons, if_pos hp] at hlen ⊢
      have hnil : (elemsPreF cs).filter (nodeHasId i) = [] := by
        have hc : ((elemsPreF cs).filter (nodeHasId i)).length + 1 ≤ 1 := by
          simpa using hlen
        exact List.eq_nil_of_length_eq_zero (by omega)
      simp [findById, if_pos h, hnil]
    · have hp : nodeHasId i (Node.elem t attrs cs) = false := by
        simp [nodeHasId, h]
      simp only [elemsPre, List.filter_cons] at hlen ⊢
      rw [if_neg (by simp [hp])] at hlen ⊢
      simp only [findById, if_neg h]
      exact findByIdF_eq_of_unique i cs hlen

/-- The forest version of `findById_eq_of_unique`. -/
theorem findByIdF_eq_of_unique (i : String) : (l : List Node) →
    ((elemsPreF l).filter (nodeHasId i)).length ≤ 1 →
    findByIdF i l = (elemsPreF l).filter (nodeHasId i)
  | [] => by simp [findByIdF, elemsPreF]
  | c :: cs => by
    intro hlen
    simp only [elemsPreF, List.filter_append, List.length_append] at hlen
    simp only [findByIdF, elemsPreF, List.filter_append]
    rw [findById_eq_of_unique i c (by omega),
      findByIdF_eq_of_unique i cs (by omega)]

end

/-- **C3 (counterexample).** The claim says a `#id` selector returns at
most one element (the first match, short-circuiting the traversal).  On a
document with two sibling `div`s both bearing `id="x"`, `select_css "#x"`
returns two elements: the `return` in `find_by_id` only exits the current
recursive call, pruning the matched element's subtree but not the
traversal of its siblings. -/
theorem claim3_id_selector_counterexample :
    (selectCss ParserConfig.default (fun v => v) docTwoIds "#x").length = 2 := by
  simp [selectCss, findByIdF, findById, getAttr, strStartsWith, headOccurs,
    strDrop, docTwoIds]

/-- **C3 (amended).** For every document: a `.class` selector returns
exactly the elements whose whitespace-separated class list contains the
token, in depth-first pre-order; a tag selector returns exactly the
elements with that tag, in depth-first pre-order; a `#id` selector returns
an order-preserving subsequence of the pre-order elements whose id equals
the token — every id match that is not nested inside another match, since
the early return only prunes the matched element's subtree — and when at
most one element bears the id (the HTML-valid case) it returns exactly
that match, i.e. at most one element, the first in pre-order. -/
theorem claim3_selector_forms (cfg : ParserConfig) (ar : String → String)
    (doc : List Node) :
    (∀ sel cls : String, sel.data = '.' :: cls.data →
      selectCss cfg ar doc sel =
        ((elemsPreF doc).filter (nodeHasClass cls)).map
          (fun n => elementToParsed cfg ar n 0)) ∧
    (∀ sel : String, strStartsWith sel "." = false →
      strStartsWith sel "#" = false →
      selectCss cfg ar doc sel =
        ((elemsPreF doc).filter (nodeHasTag sel)).map
          (fun n => elementToParsed cfg ar n 0)) ∧
    (∀ sel i : String, sel.data = '#' :: i.data →
      (selectCss cfg ar doc sel).Sublist
        (((elemsPreF doc).filter (nodeHasId i)).map
          (fun n => elementToParsed cfg ar n 0)) ∧
      (((elemsPreF doc).filter (nodeHasId i)).length ≤ 1 →
        selectCss cfg ar doc sel =
          ((elemsPreF doc).filter (nodeHasId i)).map
            (fun n => elementToParsed cfg ar n 0))) := by
  refine ⟨?_, ?_, ?_⟩
  · intro sel cls hsel
    have hsw : strStartsWith sel "." = true := by
      unfold strStartsWith
      rw [hsel]
      rfl
    have hdrop : strDrop sel 1 = cls := by
      unfold strDrop
      rw [hsel]
      rfl
    simp only [selectCss, hsw, hdrop, if_true]
    rw [findByClassF_eq]
  · intro sel h1 h2
    simp only [selectCss, h1, h2, Bool.false_eq_true, if_false]
    rw [findByTagF_eq]
  · intro sel i hsel
    have hsw1 : strStartsWith sel "." = false := by
      unfold strStartsWith
      rw [hsel]
      rfl
    have hsw2 : strStartsWith sel "#" = true := by
      unfold strStartsWith
      rw [hsel]
      rfl
    have hdrop : strDrop sel 1 = i := by
      unfold strDrop
      rw [hsel]
      rfl
    constructor
    · simp only [selectCss, hsw1, hsw2, hdrop, Bool.false_eq_true, if_false,
        if_true]
      exact (findByIdF_sublist i doc).map _
    · intro hu
      simp only [selectCss, hsw1, hsw2, hdrop, Bool.false_eq_true, if_false,
        if_true]
      rw [findByIdF_eq_of_unique i doc hu]

/-- **C3 (witness).** The amended `#id` behaviour on a document whose id
`"u"` is unique: the selector returns exactly the single pre-order
match. -/
theorem claim3_selector_forms_witness :
    selectCss ParserConfig.default (fun v => v) docUniqueId "#u" =
      ((elemsPreF docUniqueId).filter (nodeHasId "u")).map
        (fun n => elementToParsed ParserConfig.default (fun v => v) n 0) :=
  ((claim3_selector_forms ParserConfig.default (fun v => v) docUniqueId).2.2
      "#u" "u" rfl).2
    (by simp [docUniqueId, elemsPreF, elemsPre, List.filter, nodeHasId, getAttr])

/-- **C4 (counterexample).** The claim says both `extract_attribute` and
`extract_attributes` return `ElementNotFound` when the selector matches
zero elements.  On a document where `.missing` matches nothing,
`extract_attributes` returns `Ok []` — the source has no empty-match check
on this path — never an error. -/
theorem claim4_extract_attributes_counterexample :
    (selectCss ParserConfig.default (fun v => v) docPlain ".missing").length = 0 ∧
    extractAttributes ParserConfig.default (fun v => v) docPlain ".missing"
      "href" = .ok [] := by
  refine ⟨?_, ?_⟩
  · simp [selectCss, findByClassF, findByClass, hasClassToken, getAttr,
      strStartsWith, headOccurs, strDrop, docPlain, splitWhitespace,
      splitOnPredAux]
  · simp [extractAttributes, selectCss, findByClassF, findByClass,
      hasClassToken, getAttr, strStartsWith, headOccurs, strDrop, docPlain,
      splitWhitespace, splitOnPredAux]

/-- **C4 (amended).** For every document, selector and attribute name:
`extract_attribute` returns `ElementNotFound` when the selector matches
zero elements, and otherwise consults only the FIRST matched element —
returning its attribute value when present and `ElementNotFound` when that
first element lacks the attribute (later matches are never consulted, so
nothing is "skipped"); `extract_attributes` never errors: it returns the
attribute values of exactly those matched elements that have the
attribute (skipping the ones that lack it), the empty list when no element
matches. -/
theorem claim4_attribute_extraction (cfg : ParserConfig)
    (ar : String → String) (doc : List Node) (sel attrName : String) :
    (selectCss cfg ar doc sel = [] →
      extractAttribute cfg ar doc sel attrName =
        .error (.elementNotFound sel) ∧
      extractAttributes cfg ar doc sel attrName = .ok []) ∧
    (∀ e es, selectCss cfg ar doc sel = e :: es →
      (∀ v, getAttr e.attributes attrName = some v →
        extractAttribute cfg ar doc sel attrName = .ok v) ∧
      (getAttr e.attributes attrName = none →
        extractAttribute cfg ar doc sel attrName =
          .error (.elementNotFound (attrName ++ " attribute on " ++ sel)))) ∧
    extractAttributes cfg ar doc sel attrName =
      .ok ((selectCss cfg ar doc sel).filterMap
        (fun e => getAttr e.attributes attrName)) := by
  refine ⟨?_, ?_, ?_⟩
  · intro hempty
    constructor
    · simp [extractAttribute, hempty]
    · simp [extractAttributes, hempty]
  · intro e es hsel
    constructor
    · intro v hv
      simp [extractAttribute, hsel, hv]
    · intro hnone
      simp [extractAttribute, hsel, hnone]
  · simp [extractAttributes]

/-- **C4 (witness).** The first-match behaviour at a concrete document
whose single `a` element has `href="u"`. -/
theorem claim4_attribute_extraction_witness :
    extractAttribute ParserConfig.default (fun v => v) docAnchor "a" "href" =
      .ok "u" := by
  have h := (claim4_attribute_extraction ParserConfig.default (fun v => v)
    docAnchor "a" "href").2.1
    (elementToParsed ParserConfig.default (fun v => v)
      (.elem "a" [("href", "u")] []) 0) []
  refine (h ?_).1 "u" ?_
  · simp [selectCss, findByTagF, findByTag, strStartsWith, headOccurs,
      docAnchor]
  · simp [elementToParsed, getAttr, parsedChildren, gatherText]
